import Mathlib

/-!
Shallow embedding of the team-membership reconciliation core of
`terraform-provider-grafana` (`grafana/resource_team.go`): the set
construction (`collectTeamUsers`), the membership differ (`teamChanges`),
the identity resolver (`addIdsToTeamChanges`) and the change applier
(`applyTeamChanges`), composed by the orchestrator (`UpdateTeamMembers`).

Go maps keyed by string are embedded as association lists in insertion
order (`List (String × _)` with `List.lookup`); Go's `(value, error)`
returns become `Except String _`; the remote client calls made by the
applier are oracles `Int → Int → Option String` (`none` = success,
`some msg` = the error string), and the applier additionally returns the
trace of remote calls it issued, in order, so that its side effects are
observable.
-/

namespace GrafanaTeam

/-- `TeamUser` from resource_team.go: a remote numeric id (int64, 0 while
unresolved) and an email used as the stable key. -/
structure TeamUser where
  Id : Int
  Email : String
deriving DecidableEq, Repr

/-- Modelled from the spec: the `ChangeType` enum is declared in a
repository file that is not among the provided sources (only its values
`Add`, `Update`, `Remove` are used by resource_team.go); the spec's
ChangeKind lists exactly the values Add, Remove, Update. -/
inductive ChangeType where
  | Add
  | Remove
  | Update
deriving DecidableEq, Repr

/-- `UserTeamChange` from resource_team.go (field `Type` is renamed
`type`, a reserved word in Lean). -/
structure UserTeamChange where
  type : ChangeType
  user : TeamUser
deriving DecidableEq, Repr

/-- One user record returned by the remote directory listing
(`client.Users()`): id and email. -/
structure GUser where
  Id : Int
  Email : String
deriving DecidableEq, Repr

/-- A remote membership call issued by the applier: `client.AddTeamMember`
or `client.RemoveMemberFromTeam`. -/
inductive RemoteCall where
  | AddMember (teamId userId : Int)
  | RemoveMember (teamId userId : Int)
deriving DecidableEq, Repr

/-- One of the two identical loops of `collectTeamUsers`: fold the email
list into the accumulated map, failing when an email is already present. -/
def collectUsersLoop : List (String × TeamUser) → List String →
    Except String (List (String × TeamUser))
  | acc, [] => .ok acc
  | acc, email :: rest =>
    if (acc.lookup email).isSome then
      .error ("Error: User '" ++ email ++ "' cannot be specified multiple times.")
    else
      collectUsersLoop (acc ++ [(email, TeamUser.mk 0 email)]) rest

/-- `collectTeamUsers` from resource_team.go: build the state (previous)
and config (desired) membership maps from the two email lists, rejecting
a duplicate email within either list. -/
def collectTeamUsers (state config : List String) :
    Except String (List (String × TeamUser) × List (String × TeamUser)) :=
  match collectUsersLoop [] state with
  | .error e => .error e
  | .ok stateUsers =>
    match collectUsersLoop [] config with
    | .error e => .error e
    | .ok configUsers => .ok (stateUsers, configUsers)

/-- `teamChanges` from resource_team.go: emit an Add for every config user
absent from the state map, then a Remove for every state user absent from
the config map. -/
def teamChanges (stateUsers configUsers : List (String × TeamUser)) :
    List UserTeamChange :=
  (configUsers.filterMap fun p =>
    if (stateUsers.lookup p.2.Email).isSome then none
    else some (UserTeamChange.mk .Add p.2)) ++
  (stateUsers.filterMap fun p =>
    if (configUsers.lookup p.2.Email).isSome then none
    else some (UserTeamChange.mk .Remove p.2))

/-- Go map update `m[k] = v`: replace the binding when the key is present,
append it otherwise. -/
def mapSet (m : List (String × Int)) (k : String) (v : Int) :
    List (String × Int) :=
  if (m.lookup k).isSome then
    m.map fun p => if p.1 = k then (k, v) else p
  else
    m ++ [(k, v)]

/-- The `gUserMap` construction in `addIdsToTeamChanges`: index the
directory listing by email (a later duplicate email overwrites). -/
def buildUserMap (gUsers : List GUser) : List (String × Int) :=
  gUsers.foldl (fun m u => mapSet m u.Email u.Id) []

/-- The per-change loop of `addIdsToTeamChanges`: look each change's email
up in the user map; when absent fail if `create` is off, otherwise call
`createFn` (the embedding of `createUser`, a repository function outside
the provided sources, taken as an oracle exactly as the spec's Resolve
contract does); the change is copied into the output with its id set. -/
def addIdsLoop (gUserMap : List (String × Int)) (create : Bool)
    (createFn : String → Except String Int) :
    List UserTeamChange → Except String (List UserTeamChange)
  | [] => .ok []
  | change :: rest =>
    match gUserMap.lookup change.user.Email with
    | none =>
      if create then
        match createFn change.user.Email with
        | .error e => .error e
        | .ok id =>
          match addIdsLoop gUserMap create createFn rest with
          | .error e => .error e
          | .ok out =>
            .ok ({ change with user := { change.user with Id := id } } :: out)
      else
        .error ("Error adding user " ++ change.user.Email ++
          ". User does not exist in Grafana.")
    | some id =>
      match addIdsLoop gUserMap create createFn rest with
      | .error e => .error e
      | .ok out =>
        .ok ({ change with user := { change.user with Id := id } } :: out)

/-- `addIdsToTeamChanges` from resource_team.go: fetch the directory
snapshot (`client.Users()`, an oracle result), index it by email, then run
the resolution loop. -/
def addIdsToTeamChanges (usersResult : Except String (List GUser))
    (create : Bool) (createFn : String → Except String Int)
    (changes : List UserTeamChange) : Except String (List UserTeamChange) :=
  match usersResult with
  | .error e => .error e
  | .ok gUsers => addIdsLoop (buildUserMap gUsers) create createFn changes

/-- `applyTeamChanges` from resource_team.go: dispatch each change in
order (`Add`/`Update` to the add call, `Remove` to the remove call); an
error other than "409 Conflict" is returned at once, a conflict is
ignored. The issued calls are returned as a trace together with the
error result (`none` embeds Go's `nil`). -/
def applyTeamChanges (addFn removeFn : Int → Int → Option String)
    (teamId : Int) : List UserTeamChange → List RemoteCall × Option String
  | [] => ([], none)
  | change :: rest =>
    let u := change.user
    let step : RemoteCall × Option String :=
      match change.type with
      | .Add => (.AddMember teamId u.Id, addFn teamId u.Id)
      | .Update => (.AddMember teamId u.Id, addFn teamId u.Id)
      | .Remove => (.RemoveMember teamId u.Id, removeFn teamId u.Id)
    match step.2 with
    | some e =>
      if e = "409 Conflict" then
        let tail := applyTeamChanges addFn removeFn teamId rest
        (step.1 :: tail.1, tail.2)
      else
        ([step.1], some e)
    | none =>
      let tail := applyTeamChanges addFn removeFn teamId rest
      (step.1 :: tail.1, tail.2)

/-- `UpdateTeamMembers` from resource_team.go: collect the two sets, diff
them, resolve ids, then apply, failing fast at each stage. A stage error
is returned with an empty remote-call trace, since no membership call has
been made yet. -/
def UpdateTeamMembers (state config : List String)
    (usersResult : Except String (List GUser)) (create : Bool)
    (createFn : String → Except String Int)
    (addFn removeFn : Int → Int → Option String) (teamId : Int) :
    List RemoteCall × Option String :=
  match collectTeamUsers state config with
  | .error e => ([], some e)
  | .ok (stateUsers, configUsers) =>
    match addIdsToTeamChanges usersResult create createFn
        (teamChanges stateUsers configUsers) with
    | .error e => ([], some e)
    | .ok changes => applyTeamChanges addFn removeFn teamId changes

/-- The remote call a change is dispatched to by the applier. -/
def callOf (teamId : Int) (change : UserTeamChange) : RemoteCall :=
  match change.type with
  | .Add => .AddMember teamId change.user.Id
  | .Update => .AddMember teamId change.user.Id
  | .Remove => .RemoveMember teamId change.user.Id

/-- The oracle answer a change's dispatched call receives. -/
def resultOf (addFn removeFn : Int → Int → Option String) (teamId : Int)
    (change : UserTeamChange) : Option String :=
  match change.type with
  | .Add => addFn teamId change.user.Id
  | .Update => addFn teamId change.user.Id
  | .Remove => removeFn teamId change.user.Id

/-- An oracle answer aborts the applier when it is an error other than
the conflict string. -/
def isFatal : Option String → Bool
  | none => false
  | some e => decide (e ≠ "409 Conflict")

/-- Turning a change of kind Update into the same change of kind Add. -/
def updateToAdd (change : UserTeamChange) : UserTeamChange :=
  if change.type = .Update then { change with type := .Add } else change

/-- Oracle for a remote add call that always succeeds. -/
def addOk : Int → Int → Option String := fun _ _ => none

/-- Oracle for a remote remove call that always succeeds. -/
def removeOk : Int → Int → Option String := fun _ _ => none

/-- Oracle for the end-to-end scenario: creating "u2@x.com" yields id 200. -/
def createU2 : String → Except String Int :=
  fun email => if email = "u2@x.com" then .ok 200 else .error "unexpected create"

/-- Oracle whose user creation always fails with the bare message "boom". -/
def createBoom : String → Except String Int := fun _ => .error "boom"

/-- Remote add oracle answering a conflict for user 1, a genuine error for
user 2 and success for any other user. -/
def addMixed : Int → Int → Option String :=
  fun _ userId =>
    if userId = 1 then some "409 Conflict"
    else if userId = 2 then some "boom" else none

/-- A hit in the left part of an appended association list wins. -/
theorem lookup_append_some {β : Type} (m d : List (String × β)) (x : String)
    (v : β) (h : m.lookup x = some v) : (m ++ d).lookup x = some v := by
  induction m with
  | nil => simp [List.lookup] at h
  | cons p rest ih =>
    rcases p with ⟨k, b⟩
    rw [List.cons_append]
    rw [List.lookup_cons] at h ⊢
    cases hx : x == k
    · simp only [hx] at h ⊢
      exact ih h
    · simp only [hx] at h ⊢
      exact h

/-- A miss in the left part of an appended association list defers to the
right part. -/
theorem lookup_append_none {β : Type} (m d : List (String × β)) (x : String)
    (h : m.lookup x = none) : (m ++ d).lookup x = d.lookup x := by
  induction m with
  | nil => simp
  | cons p rest ih =>
    rcases p with ⟨k, b⟩
    rw [List.cons_append]
    rw [List.lookup_cons] at h ⊢
    cases hx : x == k
    · simp only [hx] at h ⊢
      exact ih h
    · simp only [hx] at h
      simp at h

/-- A key bound in an association list is found by lookup. -/
theorem lookup_isSome_of_mem {β : Type} (m : List (String × β)) (k : String)
    (v : β) (h : (k, v) ∈ m) : (m.lookup k).isSome := by
  induction m with
  | nil => cases h
  | cons p rest ih =>
    rcases p with ⟨a, b⟩
    rw [List.lookup_cons]
    cases hx : k == a
    · simp only [hx]
      rcases List.mem_cons.mp h with he | hm
      · cases he
        simp at hx
      · exact ih hm
    · simp [hx]

/-- Every change produced by `teamChanges` is an Add taken from the config
set and missing from the state set, or a Remove taken from the state set
and missing from the config set. -/
theorem teamChanges_mem (s c : List (String × TeamUser)) (change : UserTeamChange)
    (h : change ∈ teamChanges s c) :
    (change.type = ChangeType.Add ∧
      ∃ p ∈ c, change.user = p.2 ∧ s.lookup p.2.Email = none) ∨
    (change.type = ChangeType.Remove ∧
      ∃ p ∈ s, change.user = p.2 ∧ c.lookup p.2.Email = none) := by
  unfold teamChanges at h
  rw [List.mem_append] at h
  rcases h with h | h
  · left
    rw [List.mem_filterMap] at h
    obtain ⟨p, hp, he⟩ := h
    cases hl : s.lookup p.2.Email with
    | some v =>
      rw [hl] at he
      simp at he
    | none =>
      rw [hl] at he
      simp only [Option.isSome_none] at he
      simp only [Bool.false_eq_true, if_false, Option.some.injEq] at he
      subst he
      exact ⟨rfl, p, hp, rfl, hl⟩
  · right
    rw [List.mem_filterMap] at h
    obtain ⟨p, hp, he⟩ := h
    cases hl : c.lookup p.2.Email with
    | some v =>
      rw [hl] at he
      simp at he
    | none =>
      rw [hl] at he
      simp only [Option.isSome_none] at he
      simp only [Bool.false_eq_true, if_false, Option.some.injEq] at he
      subst he
      exact ⟨rfl, p, hp, rfl, hl⟩

/-- Unfolding equation for the applier on a non-empty change list, phrased
through `callOf` and `resultOf`. -/
theorem apply_cons (addFn removeFn : Int → Int → Option String) (teamId : Int)
    (change : UserTeamChange) (rest : List UserTeamChange) :
    applyTeamChanges addFn removeFn teamId (change :: rest) =
      match resultOf addFn removeFn teamId change with
      | some e =>
        if e = "409 Conflict" then
          (callOf teamId change :: (applyTeamChanges addFn removeFn teamId rest).1,
            (applyTeamChanges addFn removeFn teamId rest).2)
        else ([callOf teamId change], some e)
      | none =>
        (callOf teamId change :: (applyTeamChanges addFn removeFn teamId rest).1,
          (applyTeamChanges addFn removeFn teamId rest).2) := by
  rcases change with ⟨ty, u⟩
  cases ty <;> rfl

/-- `callOf` ignores the Update-to-Add renaming. -/
theorem callOf_updateToAdd (teamId : Int) (change : UserTeamChange) :
    callOf teamId (updateToAdd change) = callOf teamId change := by
  rcases change with ⟨ty, u⟩
  cases ty <;> rfl

/-- `resultOf` ignores the Update-to-Add renaming. -/
theorem resultOf_updateToAdd (addFn removeFn : Int → Int → Option String)
    (teamId : Int) (change : UserTeamChange) :
    resultOf addFn removeFn teamId (updateToAdd change) =
      resultOf addFn removeFn teamId change := by
  rcases change with ⟨ty, u⟩
  cases ty <;> rfl

/-- The applier is blind to the difference between Update and Add. -/
theorem apply_updateToAdd (addFn removeFn : Int → Int → Option String)
    (teamId : Int) (changes : List UserTeamChange) :
    applyTeamChanges addFn removeFn teamId (changes.map updateToAdd) =
      applyTeamChanges addFn removeFn teamId changes := by
  induction changes with
  | nil => rfl
  | cons change rest ih =>
    rw [List.map_cons, apply_cons, apply_cons, ih, resultOf_updateToAdd,
      callOf_updateToAdd]

/-- Claim C6: no change emitted by the differ has kind Update, and the
applier dispatches a change list exactly as it dispatches the same list
with every Update replaced by an Add (so Update goes to the remote add
call, like Add). -/
theorem update_never_produced (s c : List (String × TeamUser))
    (change : UserTeamChange) (addFn removeFn : Int → Int → Option String)
    (teamId : Int) (changes : List UserTeamChange) :
    (change ∈ teamChanges s c → change.type ≠ ChangeType.Update) ∧
    applyTeamChanges addFn removeFn teamId (changes.map updateToAdd) =
      applyTeamChanges addFn removeFn teamId changes := by
  constructor
  · intro h
    rcases teamChanges_mem s c change h with ⟨ht, _⟩ | ⟨ht, _⟩ <;> simp [ht]
  · exact apply_updateToAdd addFn removeFn teamId changes

/-- Witness for C6 at a concrete differ output and a concrete Update
change list. -/
theorem update_never_produced_witness :
    (UserTeamChange.mk ChangeType.Add (TeamUser.mk 0 "a")).type ≠
      ChangeType.Update :=
  (update_never_produced [] [("a", TeamUser.mk 0 "a")]
    (UserTeamChange.mk ChangeType.Add (TeamUser.mk 0 "a")) addOk removeOk 0
    []).1 (by decide)

/-- Claim C9: in the end-to-end scenario (previous u1 only, desired u1 and
u2, directory knowing u1 as 100, creation allowed and yielding 200 for
u2), the reconciliation issues exactly one AddMember(teamId, 200) call
and no RemoveMember call. -/
theorem end_to_end_single_add (teamId : Int) :
    UpdateTeamMembers ["u1@x.com"] ["u1@x.com", "u2@x.com"]
      (.ok [GUser.mk 100 "u1@x.com"]) true createU2 addOk removeOk teamId =
      ([RemoteCall.AddMember teamId 200], none) := rfl

/-- When no oracle answer is a non-conflict error, the applier issues
every change's call in order and returns success. -/
theorem apply_all_ok (addFn removeFn : Int → Int → Option String)
    (teamId : Int) (changes : List UserTeamChange)
    (h : ∀ x ∈ changes, isFatal (resultOf addFn removeFn teamId x) = false) :
    applyTeamChanges addFn removeFn teamId changes =
      (changes.map (callOf teamId), none) := by
  induction changes with
  | nil => rfl
  | cons x rest ih =>
    have hx := h x (List.mem_cons_self x rest)
    rw [apply_cons, ih fun y hy => h y (List.mem_cons_of_mem x hy)]
    cases hr : resultOf addFn removeFn teamId x with
    | none => simp
    | some e =>
      rw [hr] at hx
      have he : e = "409 Conflict" := by simpa [isFatal] using hx
      subst he
      simp

/-- The first non-conflict error aborts the applier: exactly the calls up
to and including the failing one are issued, and that error is returned. -/
theorem apply_first_fatal (addFn removeFn : Int → Int → Option String)
    (teamId : Int) (pre post : List UserTeamChange) (c : UserTeamChange)
    (e : String)
    (hpre : ∀ x ∈ pre, isFatal (resultOf addFn removeFn teamId x) = false)
    (hc : resultOf addFn removeFn teamId c = some e)
    (hne : e ≠ "409 Conflict") :
    applyTeamChanges addFn removeFn teamId (pre ++ c :: post) =
      ((pre ++ [c]).map (callOf teamId), some e) := by
  induction pre with
  | nil =>
    rw [List.nil_append, apply_cons, hc]
    simp [hne]
  | cons x rest ih =>
    have hx := hpre x (List.mem_cons_self x rest)
    rw [List.cons_append, apply_cons,
      ih fun y hy => hpre y (List.mem_cons_of_mem x hy)]
    cases hr : resultOf addFn removeFn teamId x with
    | none => simp
    | some e2 =>
      rw [hr] at hx
      have he2 : e2 = "409 Conflict" := by simpa [isFatal] using hx
      subst he2
      simp

/-- Claim C2: the applier walks the changes in order; conflict answers
("409 Conflict") are treated as success and every later change is still
attempted (with nil returned when nothing else fails), while the first
non-conflict error is returned at once and the remaining changes are
never attempted. -/
theorem applyTeamChanges_conflict_and_abort
    (addFn removeFn : Int → Int → Option String) (teamId : Int)
    (changes : List UserTeamChange) :
    ((∀ x ∈ changes, isFatal (resultOf addFn removeFn teamId x) = false) →
      applyTeamChanges addFn removeFn teamId changes =
        (changes.map (callOf teamId), none)) ∧
    (∀ pre c post e, changes = pre ++ c :: post →
      (∀ x ∈ pre, isFatal (resultOf addFn removeFn teamId x) = false) →
      resultOf addFn removeFn teamId c = some e → e ≠ "409 Conflict" →
      applyTeamChanges addFn removeFn teamId changes =
        ((pre ++ [c]).map (callOf teamId), some e)) := by
  constructor
  · exact apply_all_ok addFn removeFn teamId changes
  · intro pre c post e hsplit hpre hc hne
    subst hsplit
    exact apply_first_fatal addFn removeFn teamId pre post c e hpre hc hne

/-- Witness for C2: a conflict on the first of two changes still lets the
second be attempted with nil returned, and a genuine error on the second
of three changes is returned with the third never attempted. -/
theorem applyTeamChanges_conflict_and_abort_witness :
    applyTeamChanges addMixed removeOk 7
      [UserTeamChange.mk ChangeType.Add (TeamUser.mk 1 "a"),
        UserTeamChange.mk ChangeType.Add (TeamUser.mk 3 "c")] =
      ([RemoteCall.AddMember 7 1, RemoteCall.AddMember 7 3], none) ∧
    applyTeamChanges addMixed removeOk 7
      [UserTeamChange.mk ChangeType.Add (TeamUser.mk 1 "a"),
        UserTeamChange.mk ChangeType.Add (TeamUser.mk 2 "b"),
        UserTeamChange.mk ChangeType.Add (TeamUser.mk 3 "c")] =
      ([RemoteCall.AddMember 7 1, RemoteCall.AddMember 7 2], some "boom") := by
  constructor
  · have h := (applyTeamChanges_conflict_and_abort addMixed removeOk 7
      [UserTeamChange.mk ChangeType.Add (TeamUser.mk 1 "a"),
        UserTeamChange.mk ChangeType.Add (TeamUser.mk 3 "c")]).1 (by decide)
    exact h.trans (by decide)
  · have h := (applyTeamChanges_conflict_and_abort addMixed removeOk 7
      [UserTeamChange.mk ChangeType.Add (TeamUser.mk 1 "a"),
        UserTeamChange.mk ChangeType.Add (TeamUser.mk 2 "b"),
        UserTeamChange.mk ChangeType.Add (TeamUser.mk 3 "c")]).2
      [UserTeamChange.mk ChangeType.Add (TeamUser.mk 1 "a")]
      (UserTeamChange.mk ChangeType.Add (TeamUser.mk 2 "b"))
      [UserTeamChange.mk ChangeType.Add (TeamUser.mk 3 "c")]
      "boom" rfl (by decide) (by decide) (by decide)
    exact h.trans (by decide)

/-- Success case of the collection loop: with no duplicate in the list and
no collision with the accumulator, each email is appended with id 0. -/
theorem collectUsersLoop_ok (l : List String) :
    ∀ acc : List (String × TeamUser), l.Nodup →
    (∀ e ∈ l, acc.lookup e = none) →
    collectUsersLoop acc l =
      .ok (acc ++ l.map fun e => (e, TeamUser.mk 0 e)) := by
  induction l with
  | nil => intro acc _ _; simp [collectUsersLoop]
  | cons e rest ih =>
    intro acc hnd hl
    have he : acc.lookup e = none := hl e (List.mem_cons_self e rest)
    have hme : e ∉ rest := (List.nodup_cons.mp hnd).1
    have hl2 : ∀ x ∈ rest, (acc ++ [(e, TeamUser.mk 0 e)]).lookup x = none := by
      intro x hx
      rw [lookup_append_none acc _ x (hl x (List.mem_cons_of_mem e hx))]
      have hxe : (x == e) = false :=
        beq_eq_false_iff_ne.mpr fun hcon => hme (hcon ▸ hx)
      rw [List.lookup_cons]
      simp [hxe, List.lookup]
    simp only [collectUsersLoop]
    rw [if_neg (by simp [he]),
      ih (acc ++ [(e, TeamUser.mk 0 e)]) (List.nodup_cons.mp hnd).2 hl2]
    simp

/-- Lifting the collision account over one loop step: a key of the rest
that collides with the extended accumulator either collided with the
original accumulator or is the stepped email itself, and then occurs
twice in the whole list. -/
theorem lookup_or_count_lift (acc : List (String × TeamUser)) (e : String)
    (rest : List String) (k : String) (hk : k ∈ rest)
    (hdisj : ((acc ++ [(e, TeamUser.mk 0 e)]).lookup k).isSome ∨
      1 < rest.count k) :
    (acc.lookup k).isSome ∨ 1 < (e :: rest).count k := by
  rcases hdisj with hsome | hcount
  · cases hak : acc.lookup k with
    | some w => left; rfl
    | none =>
      right
      have h2 : (([(e, TeamUser.mk 0 e)] :
          List (String × TeamUser)).lookup k).isSome := by
        rw [← lookup_append_none acc _ k hak]
        exact hsome
      have hke : k = e := by
        rw [List.lookup_cons] at h2
        cases hko : k == e
        · rw [hko] at h2
          simp at h2
        · exact eq_of_beq hko
      rw [hke] at hk ⊢
      have hpos : 0 < rest.count e := List.count_pos_iff.mpr hk
      rw [List.count_cons, if_pos (beq_self_eq_true e)]
      omega
  · right
    have hle : rest.count k ≤ (e :: rest).count k := by
      rw [List.count_cons]
      split <;> omega
    exact lt_of_lt_of_le hcount hle

/-- If some email of the list already collides with the accumulator, the
collection loop fails naming an email of the list that collides with the
accumulator or occurs twice in the list. -/
theorem collectUsersLoop_error_of_known (l : List String) :
    ∀ acc : List (String × TeamUser),
    (∃ x ∈ l, (acc.lookup x).isSome) →
    ∃ k, k ∈ l ∧ ((acc.lookup k).isSome ∨ 1 < l.count k) ∧
      collectUsersLoop acc l =
      .error ("Error: User '" ++ k ++ "' cannot be specified multiple times.") := by
  induction l with
  | nil => intro acc h; simp at h
  | cons e rest ih =>
    intro acc h
    cases hae : (acc.lookup e).isSome
    · obtain ⟨x, hx, hxs⟩ := h
      have hxrest : x ∈ rest := by
        rcases List.mem_cons.mp hx with rfl | hm
        · rw [hae] at hxs; cases hxs
        · exact hm
      obtain ⟨v, hv⟩ := Option.isSome_iff_exists.mp hxs
      have hxs2 : ((acc ++ [(e, TeamUser.mk 0 e)]).lookup x).isSome := by
        rw [lookup_append_some acc _ x v hv]; rfl
      obtain ⟨k, hk, hdisj, heq⟩ :=
        ih (acc ++ [(e, TeamUser.mk 0 e)]) ⟨x, hxrest, hxs2⟩
      refine ⟨k, List.mem_cons_of_mem e hk,
        lookup_or_count_lift acc e rest k hk hdisj, ?_⟩
      simp only [collectUsersLoop]
      rw [if_neg (by simp [hae])]
      exact heq
    · refine ⟨e, List.mem_cons_self e rest, .inl hae, ?_⟩
      simp only [collectUsersLoop]
      rw [if_pos hae]

/-- A duplicate inside the email list makes the collection loop fail
naming an email that collides with the accumulator or occurs twice in
the list, whatever the accumulator. -/
theorem collectUsersLoop_error_of_dup (l : List String) :
    ∀ acc : List (String × TeamUser), ¬ l.Nodup →
    ∃ k, k ∈ l ∧ ((acc.lookup k).isSome ∨ 1 < l.count k) ∧
      collectUsersLoop acc l =
      .error ("Error: User '" ++ k ++ "' cannot be specified multiple times.") := by
  induction l with
  | nil => intro acc h; exact absurd List.nodup_nil h
  | cons e rest ih =>
    intro acc h
    cases hae : (acc.lookup e).isSome
    · have hstep : collectUsersLoop acc (e :: rest) =
          collectUsersLoop (acc ++ [(e, TeamUser.mk 0 e)]) rest := by
        simp only [collectUsersLoop]
        rw [if_neg (by simp [hae])]
      by_cases hr : rest.Nodup
      · have hmem : e ∈ rest := by
          by_contra hcon
          exact h (List.nodup_cons.mpr ⟨hcon, hr⟩)
        have hacc2 : ((acc ++ [(e, TeamUser.mk 0 e)]).lookup e).isSome := by
          have hnone : acc.lookup e = none := by
            cases hoe : acc.lookup e
            · rfl
            · rw [hoe] at hae; cases hae
          rw [lookup_append_none acc _ e hnone]
          rw [List.lookup_cons]
          simp
        obtain ⟨k, hk, hdisj, heq⟩ :=
          collectUsersLoop_error_of_known rest (acc ++ [(e, TeamUser.mk 0 e)])
            ⟨e, hmem, hacc2⟩
        exact ⟨k, List.mem_cons_of_mem e hk,
          lookup_or_count_lift acc e rest k hk hdisj, hstep.trans heq⟩
      · obtain ⟨k, hk, hdisj, heq⟩ := ih (acc ++ [(e, TeamUser.mk 0 e)]) hr
        exact ⟨k, List.mem_cons_of_mem e hk,
          lookup_or_count_lift acc e rest k hk hdisj, hstep.trans heq⟩
    · refine ⟨e, List.mem_cons_self e rest, .inl hae, ?_⟩
      simp only [collectUsersLoop]
      rw [if_pos hae]

/-- Counterexample to C4 as stated: the duplicate-key error message is
literally identical whether the duplicate sits in the state (previous)
list or in the config (desired) list, so the error names the offending
key but cannot name which set it occurred in. -/
theorem collectTeamUsers_dup_counterexample :
    collectTeamUsers ["a", "a"] [] =
      .error "Error: User 'a' cannot be specified multiple times." ∧
    collectTeamUsers [] ["a", "a"] =
      .error "Error: User 'a' cannot be specified multiple times." :=
  ⟨rfl, rfl⟩

/-- Claim C4 (amended): a duplicate email in either input list makes
`collectTeamUsers` fail with the duplicate-key error naming the offending
email — a key that occurs more than once in that list; the message does
not say which set it occurred in — and no sets are returned. -/
theorem collectTeamUsers_dup (state config : List String) :
    (¬ state.Nodup → ∃ k, 1 < state.count k ∧ collectTeamUsers state config =
      .error ("Error: User '" ++ k ++ "' cannot be specified multiple times.")) ∧
    (state.Nodup → ¬ config.Nodup → ∃ k, 1 < config.count k ∧
      collectTeamUsers state config =
      .error ("Error: User '" ++ k ++ "' cannot be specified multiple times.")) := by
  constructor
  · intro h
    obtain ⟨k, _, hdisj, heq⟩ := collectUsersLoop_error_of_dup state [] h
    have hcount : 1 < state.count k := by
      rcases hdisj with hsome | hcount
      · simp [List.lookup] at hsome
      · exact hcount
    refine ⟨k, hcount, ?_⟩
    simp [collectTeamUsers, heq]
  · intro hs h
    have hstate := collectUsersLoop_ok state [] hs (fun e _ => rfl)
    obtain ⟨k, _, hdisj, heq⟩ := collectUsersLoop_error_of_dup config [] h
    have hcount : 1 < config.count k := by
      rcases hdisj with hsome | hcount
      · simp [List.lookup] at hsome
      · exact hcount
    refine ⟨k, hcount, ?_⟩
    simp [collectTeamUsers, hstate, heq]

/-- Witness for C4 at a concrete duplicated input. -/
theorem collectTeamUsers_dup_witness :
    ∃ k, 1 < (["a", "a"] : List String).count k ∧
      collectTeamUsers ["a", "a"] ["b"] =
      .error ("Error: User '" ++ k ++ "' cannot be specified multiple times.") :=
  (collectTeamUsers_dup ["a", "a"] ["b"]).1 (by decide)

/-- Prepending changes whose emails are all known to the user map neither
absorbs an error of the rest nor changes it, and on success contributes
exactly one resolved change per prepended change. -/
theorem addIdsLoop_known_append (m : List (String × Int)) (create : Bool)
    (createFn : String → Except String Int) (pre ys : List UserTeamChange)
    (hpre : ∀ x ∈ pre, (m.lookup x.user.Email).isSome) :
    (∀ e, addIdsLoop m create createFn ys = .error e →
      addIdsLoop m create createFn (pre ++ ys) = .error e) ∧
    (∀ b, addIdsLoop m create createFn ys = .ok b →
      ∃ a, a.length = pre.length ∧
        addIdsLoop m create createFn (pre ++ ys) = .ok (a ++ b)) := by
  revert hpre
  induction pre with
  | nil => exact fun _ => ⟨fun e he => he, fun b hb => ⟨[], rfl, hb⟩⟩
  | cons x rest ih =>
    intro hpre
    have hx := hpre x (List.mem_cons_self x rest)
    obtain ⟨id, hid⟩ := Option.isSome_iff_exists.mp hx
    obtain ⟨ih1, ih2⟩ := ih fun y hy => hpre y (List.mem_cons_of_mem x hy)
    constructor
    · intro e he
      rw [List.cons_append]
      simp only [addIdsLoop, hid]
      rw [ih1 e he]
    · intro b hb
      obtain ⟨a, hlen, haeq⟩ := ih2 b hb
      refine ⟨{ x with user := { x.user with Id := id } } :: a,
        by simp [hlen], ?_⟩
      rw [List.cons_append]
      simp only [addIdsLoop, hid]
      rw [haeq]
      rfl

/-- With creation off, any change list containing an email unknown to the
user map makes the resolution loop fail with the unknown-user error
naming an unknown email of the list. -/
theorem addIdsLoop_unknown_exists (m : List (String × Int))
    (createFn : String → Except String Int) :
    ∀ changes : List UserTeamChange,
    (∃ x ∈ changes, m.lookup x.user.Email = none) →
    ∃ k, (∃ x ∈ changes, x.user.Email = k) ∧ m.lookup k = none ∧
      addIdsLoop m false createFn changes =
      .error ("Error adding user " ++ k ++
        ". User does not exist in Grafana.") := by
  intro changes
  induction changes with
  | nil =>
    rintro ⟨x, hx, _⟩
    cases hx
  | cons x rest ih =>
    rintro ⟨y, hy, hyn⟩
    cases hl : m.lookup x.user.Email with
    | none =>
      refine ⟨x.user.Email, ⟨x, List.mem_cons_self x rest, rfl⟩, hl, ?_⟩
      simp [addIdsLoop, hl]
    | some id =>
      have hyrest : y ∈ rest := by
        rcases List.mem_cons.mp hy with rfl | hm
        · rw [hl] at hyn; cases hyn
        · exact hm
      obtain ⟨k, ⟨z, hz, hzk⟩, hkn, herr⟩ := ih ⟨y, hyrest, hyn⟩
      refine ⟨k, ⟨z, List.mem_cons_of_mem x hz, hzk⟩, hkn, ?_⟩
      simp only [addIdsLoop, hl, herr]

/-- Claim C3: with creation disallowed, a change whose email is unknown to
the directory snapshot makes the whole resolution fail with the
unknown-user error naming that email, and no resolved list is returned.
First conjunct: the precise form — the change after an all-known prefix
is the one named. Second conjunct: every change list containing some
unknown email fails naming an unknown email of the list. -/
theorem resolver_unknown_user_aborts (gUsers : List GUser)
    (createFn : String → Except String Int) (pre post : List UserTeamChange)
    (c : UserTeamChange) (changes : List UserTeamChange) :
    ((∀ x ∈ pre, ((buildUserMap gUsers).lookup x.user.Email).isSome) →
      (buildUserMap gUsers).lookup c.user.Email = none →
      addIdsToTeamChanges (.ok gUsers) false createFn (pre ++ c :: post) =
        .error ("Error adding user " ++ c.user.Email ++
          ". User does not exist in Grafana.")) ∧
    ((∃ x ∈ changes, (buildUserMap gUsers).lookup x.user.Email = none) →
      ∃ k, (∃ x ∈ changes, x.user.Email = k) ∧
        (buildUserMap gUsers).lookup k = none ∧
        addIdsToTeamChanges (.ok gUsers) false createFn changes =
          .error ("Error adding user " ++ k ++
            ". User does not exist in Grafana.")) := by
  constructor
  · intro hpre hc
    have hhead : addIdsLoop (buildUserMap gUsers) false createFn (c :: post) =
        .error ("Error adding user " ++ c.user.Email ++
          ". User does not exist in Grafana.") := by
      simp [addIdsLoop, hc]
    show addIdsLoop (buildUserMap gUsers) false createFn (pre ++ c :: post) = _
    exact (addIdsLoop_known_append (buildUserMap gUsers) false createFn pre
      (c :: post) hpre).1 _ hhead
  · intro hex
    obtain ⟨k, hkmem, hkn, herr⟩ :=
      addIdsLoop_unknown_exists (buildUserMap gUsers) createFn changes hex
    exact ⟨k, hkmem, hkn, herr⟩

/-- Witness for C3: the directory knows u1 but not u2 and creation is off;
the decomposed form (all-known prefix, then the u2 change) fails naming
u2, and the general form at the same concrete list names an unknown email
of the list. -/
theorem resolver_unknown_user_aborts_witness :
    addIdsToTeamChanges (.ok [GUser.mk 100 "u1"]) false createBoom
      ([UserTeamChange.mk ChangeType.Add (TeamUser.mk 0 "u1")] ++
        UserTeamChange.mk ChangeType.Add (TeamUser.mk 0 "u2") :: []) =
      .error ("Error adding user " ++ "u2" ++
        ". User does not exist in Grafana.") ∧
    (∃ k, (∃ x ∈ [UserTeamChange.mk ChangeType.Add (TeamUser.mk 0 "u1"),
        UserTeamChange.mk ChangeType.Add (TeamUser.mk 0 "u2")],
        x.user.Email = k) ∧
      (buildUserMap [GUser.mk 100 "u1"]).lookup k = none ∧
      addIdsToTeamChanges (.ok [GUser.mk 100 "u1"]) false createBoom
        [UserTeamChange.mk ChangeType.Add (TeamUser.mk 0 "u1"),
          UserTeamChange.mk ChangeType.Add (TeamUser.mk 0 "u2")] =
        .error ("Error adding user " ++ k ++
          ". User does not exist in Grafana.")) :=
  ⟨(resolver_unknown_user_aborts [GUser.mk 100 "u1"] createBoom
      [UserTeamChange.mk ChangeType.Add (TeamUser.mk 0 "u1")] []
      (UserTeamChange.mk ChangeType.Add (TeamUser.mk 0 "u2")) []).1
      (by decide) (by decide),
    (resolver_unknown_user_aborts [GUser.mk 100 "u1"] createBoom [] []
      (UserTeamChange.mk ChangeType.Add (TeamUser.mk 0 "u2"))
      [UserTeamChange.mk ChangeType.Add (TeamUser.mk 0 "u1"),
        UserTeamChange.mk ChangeType.Add (TeamUser.mk 0 "u2")]).2
      (by decide)⟩

/-- Counterexample to C5 as stated: a failing creation makes the resolver
return the creation error verbatim ("boom"); the offending key does not
occur in the returned error, so the error is not wrapped with the key. -/
theorem resolver_create_error_not_wrapped :
    addIdsToTeamChanges (.ok []) true createBoom
      [UserTeamChange.mk ChangeType.Add (TeamUser.mk 0 "b@x.com")] =
      .error "boom" ∧
    ¬ List.IsInfix "b@x.com".data "boom".data :=
  ⟨rfl, by decide⟩

/-- Claim C5 (amended): when a change's email is unknown and creation is
allowed, the resolver invokes createFn on that email; on success the
output change at that position adopts the returned id, and on failure the
batch aborts with the creation error returned unchanged (not wrapped with
the key). -/
theorem resolver_create_path (gUsers : List GUser)
    (createFn : String → Except String Int) (pre post : List UserTeamChange)
    (c : UserTeamChange)
    (hpre : ∀ x ∈ pre, ((buildUserMap gUsers).lookup x.user.Email).isSome)
    (hc : (buildUserMap gUsers).lookup c.user.Email = none) :
    (∀ e, createFn c.user.Email = .error e →
      addIdsToTeamChanges (.ok gUsers) true createFn (pre ++ c :: post) =
        .error e) ∧
    (∀ id out, createFn c.user.Email = .ok id →
      addIdsToTeamChanges (.ok gUsers) true createFn (pre ++ c :: post) =
        .ok out →
      out[pre.length]? = some { c with user := { c.user with Id := id } }) := by
  obtain ⟨k1, k2⟩ := addIdsLoop_known_append (buildUserMap gUsers) true
    createFn pre (c :: post) hpre
  constructor
  · intro e he
    have hhead : addIdsLoop (buildUserMap gUsers) true createFn (c :: post) =
        .error e := by
      simp [addIdsLoop, hc, he]
    exact k1 e hhead
  · intro id out hid hout
    have hout2 : addIdsLoop (buildUserMap gUsers) true createFn
        (pre ++ c :: post) = .ok out := hout
    cases hrest : addIdsLoop (buildUserMap gUsers) true createFn post with
    | error e =>
      have hhead : addIdsLoop (buildUserMap gUsers) true createFn (c :: post) =
          .error e := by
        simp [addIdsLoop, hc, hid, hrest]
      rw [k1 e hhead] at hout2
      cases hout2
    | ok outPost =>
      have hhead : addIdsLoop (buildUserMap gUsers) true createFn (c :: post) =
          .ok ({ c with user := { c.user with Id := id } } :: outPost) := by
        simp [addIdsLoop, hc, hid, hrest]
      obtain ⟨a, hlen, haeq⟩ := k2 _ hhead
      rw [haeq] at hout2
      cases hout2
      rw [List.getElem?_append_right (le_of_eq hlen)]
      simp [hlen]

/-- Witness for C5 at a concrete unknown key whose creation fails. -/
theorem resolver_create_path_witness :
    addIdsToTeamChanges (.ok []) true createBoom
      ([] ++ UserTeamChange.mk ChangeType.Add (TeamUser.mk 0 "b@x.com") :: []) =
      .error "boom" :=
  (resolver_create_path [] createBoom [] []
    (UserTeamChange.mk ChangeType.Add (TeamUser.mk 0 "b@x.com"))
    (by decide) (by decide)).1 "boom" rfl

/-- A successful resolution loop preserves the list length and, position
by position, the change kind and the email. -/
theorem addIdsLoop_preserves_shape (m : List (String × Int)) (create : Bool)
    (createFn : String → Except String Int) :
    ∀ changes out : List UserTeamChange,
    addIdsLoop m create createFn changes = .ok out →
    out.length = changes.length ∧
    ∀ i (h1 : i < out.length) (h2 : i < changes.length),
      (out.get ⟨i, h1⟩).type = (changes.get ⟨i, h2⟩).type ∧
      (out.get ⟨i, h1⟩).user.Email = (changes.get ⟨i, h2⟩).user.Email := by
  intro changes
  induction changes with
  | nil =>
    intro out h
    simp only [addIdsLoop] at h
    cases h
    exact ⟨rfl, fun i h1 _ => absurd h1 (by simp)⟩
  | cons chg rest ih =>
    intro out h
    simp only [addIdsLoop] at h
    cases hl : m.lookup chg.user.Email with
    | some id =>
      rw [hl] at h
      cases hrest : addIdsLoop m create createFn rest with
      | error e => rw [hrest] at h; cases h
      | ok outRest =>
        rw [hrest] at h
        cases h
        obtain ⟨hlen, hidx⟩ := ih outRest hrest
        refine ⟨by simp [hlen], ?_⟩
        intro i h1 h2
        cases i with
        | zero => exact ⟨rfl, rfl⟩
        | succ n => exact hidx n (by simpa using h1) (by simpa using h2)
    | none =>
      rw [hl] at h
      cases create
      · simp at h
      · rw [if_pos rfl] at h
        cases hcf : createFn chg.user.Email with
        | error e => rw [hcf] at h; cases h
        | ok id =>
          rw [hcf] at h
          cases hrest : addIdsLoop m true createFn rest with
          | error e => rw [hrest] at h; cases h
          | ok outRest =>
            rw [hrest] at h
            cases h
            obtain ⟨hlen, hidx⟩ := ih outRest hrest
            refine ⟨by simp [hlen], ?_⟩
            intro i h1 h2
            cases i with
            | zero => exact ⟨rfl, rfl⟩
            | succ n => exact hidx n (by simpa using h1) (by simpa using h2)

/-- Claim C10: a successful resolution returns one output change per input
change, in order, with the same kind and the same email at every position;
only the member id differs. -/
theorem resolver_preserves_shape (usersResult : Except String (List GUser))
    (create : Bool) (createFn : String → Except String Int)
    (changes out : List UserTeamChange)
    (h : addIdsToTeamChanges usersResult create createFn changes = .ok out) :
    out.length = changes.length ∧
    ∀ i (h1 : i < out.length) (h2 : i < changes.length),
      (out.get ⟨i, h1⟩).type = (changes.get ⟨i, h2⟩).type ∧
      (out.get ⟨i, h1⟩).user.Email = (changes.get ⟨i, h2⟩).user.Email := by
  cases usersResult with
  | error e => cases h
  | ok gUsers =>
    exact addIdsLoop_preserves_shape (buildUserMap gUsers) create createFn
      changes out h

/-- Witness for C10 at a concrete one-change resolution. -/
theorem resolver_preserves_shape_witness :
    ([UserTeamChange.mk ChangeType.Add (TeamUser.mk 5 "a")] :
      List UserTeamChange).length =
    ([UserTeamChange.mk ChangeType.Add (TeamUser.mk 0 "a")] :
      List UserTeamChange).length :=
  (resolver_preserves_shape (.ok [GUser.mk 5 "a"]) true createBoom
    [UserTeamChange.mk ChangeType.Add (TeamUser.mk 0 "a")]
    [UserTeamChange.mk ChangeType.Add (TeamUser.mk 5 "a")] rfl).1

/-- Every entry a successful collection loop returns either came from the
accumulator or is the fresh entry (key, TeamUser 0 key). -/
theorem collectUsersLoop_mem (l : List String) :
    ∀ acc m : List (String × TeamUser),
    collectUsersLoop acc l = .ok m →
    ∀ p ∈ m, p ∈ acc ∨ p.2 = TeamUser.mk 0 p.1 := by
  induction l with
  | nil =>
    intro acc m h p hp
    simp only [collectUsersLoop] at h
    cases h
    exact .inl hp
  | cons e rest ih =>
    intro acc m h p hp
    simp only [collectUsersLoop] at h
    split at h
    · cases h
    · rcases ih (acc ++ [(e, TeamUser.mk 0 e)]) m h p hp with hin | hnew
      · rcases List.mem_append.mp hin with hin2 | hin3
        · exact .inl hin2
        · right
          simp only [List.mem_singleton] at hin3
          rw [hin3]
      · exact .inr hnew

/-- Every change a successful resolution loop emits carries the id the
directory knows for its email, or — when creation is on and the email is
unknown — the id creation returned for it. -/
theorem addIdsLoop_resolved (m : List (String × Int)) (create : Bool)
    (createFn : String → Except String Int) :
    ∀ changes out : List UserTeamChange,
    addIdsLoop m create createFn changes = .ok out →
    ∀ change ∈ out,
      m.lookup change.user.Email = some change.user.Id ∨
      (create = true ∧ m.lookup change.user.Email = none ∧
        createFn change.user.Email = .ok change.user.Id) := by
  intro changes
  induction changes with
  | nil =>
    intro out h change hmem
    simp only [addIdsLoop] at h
    cases h
    cases hmem
  | cons chg rest ih =>
    intro out h change hmem
    simp only [addIdsLoop] at h
    cases hl : m.lookup chg.user.Email with
    | some id =>
      rw [hl] at h
      cases hrest : addIdsLoop m create createFn rest with
      | error e => rw [hrest] at h; cases h
      | ok outRest =>
        rw [hrest] at h
        cases h
        rcases List.mem_cons.mp hmem with rfl | hm
        · exact .inl hl
        · exact ih outRest hrest change hm
    | none =>
      rw [hl] at h
      cases create
      · simp at h
      · rw [if_pos rfl] at h
        cases hcf : createFn chg.user.Email with
        | error e => rw [hcf] at h; cases h
        | ok id =>
          rw [hcf] at h
          cases hrest : addIdsLoop m true createFn rest with
          | error e => rw [hrest] at h; cases h
          | ok outRest =>
            rw [hrest] at h
            cases h
            rcases List.mem_cons.mp hmem with rfl | hm
            · exact .inr ⟨rfl, hl, hcf⟩
            · exact ih outRest hrest change hm

/-- Counterexample to C7 as stated, on both counts it fails. In-place
clause: the resolver returns a fresh change list whose member carries the
resolved id, while the change list it was given is a different value
whose members still carry id 0 (in the Go source, `range` copies each
struct and a new `output` slice is built, so the input slice is never
mutated). Non-zero clause: a directory entry with id 0 makes the resolver
succeed with a resolved id equal to 0, so the resolved id is not
guaranteed non-zero. -/
theorem resolver_not_in_place :
    (addIdsToTeamChanges (.ok [GUser.mk 5 "a"]) true createBoom
      [UserTeamChange.mk ChangeType.Add (TeamUser.mk 0 "a")] =
      .ok [UserTeamChange.mk ChangeType.Add (TeamUser.mk 5 "a")] ∧
    [UserTeamChange.mk ChangeType.Add (TeamUser.mk 5 "a")] ≠
      [UserTeamChange.mk ChangeType.Add (TeamUser.mk 0 "a")]) ∧
    addIdsToTeamChanges (.ok [GUser.mk 0 "a"]) true createBoom
      [UserTeamChange.mk ChangeType.Add (TeamUser.mk 0 "a")] =
      .ok [UserTeamChange.mk ChangeType.Add (TeamUser.mk 0 "a")] :=
  ⟨⟨rfl, by decide⟩, rfl⟩

/-- Claim C7 (amended): every change produced by the differ from the sets
built by `collectTeamUsers` carries the unresolved id 0, and on success
the resolver returns a new change list (the input list is not modified)
whose every change carries the id resolved for its email: the directory
id when known, otherwise the id its creation returned. -/
theorem differ_unresolved_resolver_ids (state config : List String)
    (s c : List (String × TeamUser)) (m : List (String × Int)) (create : Bool)
    (createFn : String → Except String Int)
    (changes out : List UserTeamChange) :
    (collectTeamUsers state config = .ok (s, c) →
      ∀ change ∈ teamChanges s c, change.user.Id = 0) ∧
    (addIdsLoop m create createFn changes = .ok out →
      ∀ change ∈ out,
        m.lookup change.user.Email = some change.user.Id ∨
        (create = true ∧ m.lookup change.user.Email = none ∧
          createFn change.user.Email = .ok change.user.Id)) := by
  constructor
  · intro hcol change hmem
    have hsc : (∀ p ∈ s, p.2 = TeamUser.mk 0 p.1) ∧
        (∀ p ∈ c, p.2 = TeamUser.mk 0 p.1) := by
      unfold collectTeamUsers at hcol
      cases hst : collectUsersLoop [] state with
      | error e => rw [hst] at hcol; cases hcol
      | ok stateUsers =>
        rw [hst] at hcol
        cases hcf : collectUsersLoop [] config with
        | error e => rw [hcf] at hcol; cases hcol
        | ok configUsers =>
          rw [hcf] at hcol
          simp only [Except.ok.injEq, Prod.mk.injEq] at hcol
          obtain ⟨rfl, rfl⟩ := hcol
          constructor
          · intro p hp
            rcases collectUsersLoop_mem state [] stateUsers hst p hp with
              h0 | h1
            · cases h0
            · exact h1
          · intro p hp
            rcases collectUsersLoop_mem config [] configUsers hcf p hp with
              h0 | h1
            · cases h0
            · exact h1
    rcases teamChanges_mem s c change hmem with ⟨_, p, hp, hu, _⟩ |
      ⟨_, p, hp, hu, _⟩
    · rw [hu, hsc.2 p hp]
    · rw [hu, hsc.1 p hp]
  · exact addIdsLoop_resolved m create createFn changes out

/-- Witness for C7: the differ output for previous {a}, desired {a, b}
carries id 0 on its single Add change. -/
theorem differ_unresolved_resolver_ids_witness :
    (UserTeamChange.mk ChangeType.Add (TeamUser.mk 0 "b")).user.Id = 0 :=
  (differ_unresolved_resolver_ids ["a"] ["a", "b"]
    [("a", TeamUser.mk 0 "a")]
    [("a", TeamUser.mk 0 "a"), ("b", TeamUser.mk 0 "b")]
    [] false createBoom [] []).1 rfl
    (UserTeamChange.mk ChangeType.Add (TeamUser.mk 0 "b")) (by decide)

/-- Diffing a membership map against itself yields no change, provided
each entry's email is its key (true of every map `collectTeamUsers`
builds). -/
theorem teamChanges_self (m : List (String × TeamUser))
    (hm : ∀ p ∈ m, p.2.Email = p.1) : teamChanges m m = [] := by
  unfold teamChanges
  rw [List.append_eq_nil]
  constructor <;>
    · rw [List.filterMap_eq_nil_iff]
      intro p hp
      have hsome : (m.lookup p.2.Email).isSome := by
        rw [hm p hp]
        exact lookup_isSome_of_mem m p.1 p.2 (by simpa using hp)
      simp [hsome]

/-- Counterexample to C8 as stated: previous [], desired {a}. The first
reconciliation succeeds, and a second reconciliation with the same
previous and desired sets is the application of the same deterministic
function to the same arguments, so it again issues the same non-empty
change application (one AddMember call) rather than an empty change set. -/
theorem second_run_same_changes :
    UpdateTeamMembers [] ["a"] (.ok [GUser.mk 1 "a"]) false createBoom
      addOk removeOk 7 = ([RemoteCall.AddMember 7 1], none) ∧
    ([RemoteCall.AddMember 7 1] : List RemoteCall) ≠ [] :=
  ⟨rfl, by decide⟩

/-- Claim C8 (amended): after a successful first reconciliation, a second
reconciliation whose previous set equals its desired set — as the state
then reflects the applied desired membership — produces an empty change
set: no remote call is issued and nil is returned. -/
theorem reconcile_noop_when_state_matches (users : List String)
    (gUsers : List GUser) (create : Bool)
    (createFn : String → Except String Int)
    (addFn removeFn : Int → Int → Option String) (teamId : Int)
    (h : users.Nodup) :
    UpdateTeamMembers users users (.ok gUsers) create createFn addFn removeFn
      teamId = ([], none) := by
  have hcol := collectUsersLoop_ok users [] h (fun e _ => rfl)
  have hself : teamChanges (users.map fun e => (e, TeamUser.mk 0 e))
      (users.map fun e => (e, TeamUser.mk 0 e)) = [] := by
    refine teamChanges_self _ ?_
    intro p hp
    obtain ⟨e, _, rfl⟩ := List.mem_map.mp hp
    rfl
  simp only [UpdateTeamMembers, collectTeamUsers, hcol, List.nil_append,
    hself, addIdsToTeamChanges, addIdsLoop, applyTeamChanges]

/-- Witness for C8 at a concrete duplicate-free membership list. -/
theorem reconcile_noop_when_state_matches_witness :
    UpdateTeamMembers ["a", "b"] ["a", "b"] (.ok [GUser.mk 1 "a"]) false
      createBoom addOk removeOk 7 = ([], none) :=
  reconcile_noop_when_state_matches ["a", "b"] [GUser.mk 1 "a"] false
    createBoom addOk removeOk 7 (by decide)

/-- Shape of the elements of either component of the differ's output:
each comes from an entry of the base map missing from the other map. -/
theorem mem_changesOf (other base : List (String × TeamUser))
    (ty : ChangeType) (ch : UserTeamChange)
    (h : ch ∈ base.filterMap fun p =>
      if (other.lookup p.2.Email).isSome then none
      else some (UserTeamChange.mk ty p.2)) :
    ∃ p ∈ base, ch = UserTeamChange.mk ty p.2 ∧
      other.lookup p.2.Email = none := by
  rw [List.mem_filterMap] at h
  obtain ⟨p, hp, he⟩ := h
  cases hl : other.lookup p.2.Email with
  | some v =>
    rw [hl] at he
    simp at he
  | none =>
    rw [hl] at he
    simp only [Option.isSome_none, Bool.false_eq_true, if_false,
      Option.some.injEq] at he
    exact ⟨p, hp, he.symm, hl⟩

/-- In a duplicate-free base map whose entries carry id 0 under their own
key, a key missing from the other map gives rise to exactly one emitted
change carrying that key. -/
theorem count_filterMap_target (other : List (String × TeamUser))
    (ty : ChangeType) (k : String) :
    ∀ base : List (String × TeamUser),
    (∀ p ∈ base, p.2 = TeamUser.mk 0 p.1) → (base.map Prod.fst).Nodup →
    k ∈ base.map Prod.fst → other.lookup k = none →
    (base.filterMap fun p =>
      if (other.lookup p.2.Email).isSome then none
      else some (UserTeamChange.mk ty p.2)).countP
      (fun ch => decide (ch = UserTeamChange.mk ty (TeamUser.mk 0 k))) = 1 := by
  intro base
  induction base with
  | nil => intro _ _ hk _; simp at hk
  | cons p rest ih =>
    intro h0 hnd hk hnone
    have hp0 : p.2 = TeamUser.mk 0 p.1 := h0 p (List.mem_cons_self p rest)
    have hpe : p.2.Email = p.1 := by rw [hp0]
    simp only [List.map_cons] at hnd
    have hknotin : p.1 ∉ rest.map Prod.fst := (List.nodup_cons.mp hnd).1
    have h0r : ∀ q ∈ rest, q.2 = TeamUser.mk 0 q.1 :=
      fun q hq => h0 q (List.mem_cons_of_mem p hq)
    rw [List.filterMap_cons]
    by_cases hpk : p.1 = k
    · subst hpk
      simp only [hpe, hnone, Option.isSome_none, Bool.false_eq_true, if_false]
      rw [List.countP_cons]
      have hone : decide (UserTeamChange.mk ty p.2 =
          UserTeamChange.mk ty (TeamUser.mk 0 p.1)) = true := by simp [hp0]
      have hzero : (rest.filterMap fun q =>
          if (other.lookup q.2.Email).isSome then none
          else some (UserTeamChange.mk ty q.2)).countP
          (fun ch => decide (ch = UserTeamChange.mk ty (TeamUser.mk 0 p.1))) =
          0 := by
        rw [List.countP_eq_zero]
        intro ch hch
        obtain ⟨q, hq, rfl, _⟩ := mem_changesOf other rest ty ch hch
        have hq0 : q.2 = TeamUser.mk 0 q.1 := h0r q hq
        have hqk : q.1 ≠ p.1 :=
          fun hcon => hknotin (hcon ▸ List.mem_map_of_mem Prod.fst hq)
        simp [hq0, hqk]
      rw [hzero, if_pos hone]
    · have hkrest : k ∈ rest.map Prod.fst := by
        rcases List.mem_cons.mp (List.map_cons Prod.fst p rest ▸ hk) with
          he | hm
        · exact absurd he.symm hpk
        · exact hm
      cases hol : other.lookup p.1 with
      | some v =>
        simp only [hpe, hol, Option.isSome_some, if_true]
        exact ih h0r (List.nodup_cons.mp hnd).2 hkrest hnone
      | none =>
        simp only [hpe, hol, Option.isSome_none, Bool.false_eq_true, if_false]
        rw [List.countP_cons]
        have hzero : decide (UserTeamChange.mk ty p.2 =
            UserTeamChange.mk ty (TeamUser.mk 0 k)) = false := by
          simp [hp0, hpk]
        rw [hzero]
        simp only [Bool.false_eq_true, if_false]
        rw [ih h0r (List.nodup_cons.mp hnd).2 hkrest hnone]

/-- A component built with one change kind contributes no change of the
other kind, counted against a fixed target change. -/
theorem countP_changesOf_ne_target (other base : List (String × TeamUser))
    (ty ty2 : ChangeType) (u : TeamUser) (hne : ty ≠ ty2) :
    (base.filterMap fun p =>
      if (other.lookup p.2.Email).isSome then none
      else some (UserTeamChange.mk ty p.2)).countP
      (fun ch => decide (ch = UserTeamChange.mk ty2 u)) = 0 := by
  rw [List.countP_eq_zero]
  intro ch hch
  obtain ⟨q, _, rfl, _⟩ := mem_changesOf other base ty ch hch
  simp [hne]

/-- A component built with one change kind contributes no change counted
under the other kind. -/
theorem countP_changesOf_ne_kind (other base : List (String × TeamUser))
    (ty ty2 : ChangeType) (hne : ty ≠ ty2) :
    (base.filterMap fun p =>
      if (other.lookup p.2.Email).isSome then none
      else some (UserTeamChange.mk ty p.2)).countP
      (fun ch => decide (ch.type = ty2)) = 0 := by
  rw [List.countP_eq_zero]
  intro ch hch
  obtain ⟨q, _, rfl, _⟩ := mem_changesOf other base ty ch hch
  simp [hne]

/-- The number of changes a component emits equals the number of base
entries whose key misses the other map. -/
theorem countP_changesOf_kind (other : List (String × TeamUser))
    (ty : ChangeType) :
    ∀ base : List (String × TeamUser),
    (∀ p ∈ base, p.2 = TeamUser.mk 0 p.1) →
    (base.filterMap fun p =>
      if (other.lookup p.2.Email).isSome then none
      else some (UserTeamChange.mk ty p.2)).countP
      (fun ch => decide (ch.type = ty)) =
    (base.filter fun p => (other.lookup p.1).isNone).length := by
  intro base
  induction base with
  | nil => intro _; rfl
  | cons p rest ih =>
    intro h0
    have hpe : p.2.Email = p.1 := by rw [h0 p (List.mem_cons_self p rest)]
    have h0r : ∀ q ∈ rest, q.2 = TeamUser.mk 0 q.1 :=
      fun q hq => h0 q (List.mem_cons_of_mem p hq)
    rw [List.filterMap_cons, List.filter_cons]
    cases hol : other.lookup p.1 with
    | some v =>
      simp only [hpe, hol, Option.isSome_some, if_true, Option.isNone_some,
        Bool.false_eq_true, if_false]
      exact ih h0r
    | none =>
      simp only [hpe, hol, Option.isSome_none, Bool.false_eq_true, if_false,
        Option.isNone_none, if_true]
      rw [List.countP_cons, ih h0r]
      simp

/-- Claim C1: over duplicate-free membership maps whose entries carry
id 0 under their own key, the differ emits exactly one Add change
{Add, (0, k)} for each key k of the desired (config) map missing from the
previous (state) map, exactly one Remove change {Remove, (0, k)} for each
key of the previous map missing from the desired map, no change at all
for a key present in both, and in total as many Adds as desired-minus-
previous keys and as many Removes as previous-minus-desired keys. -/
theorem teamChanges_exact_diff (s c : List (String × TeamUser))
    (hs0 : ∀ p ∈ s, p.2 = TeamUser.mk 0 p.1)
    (hc0 : ∀ p ∈ c, p.2 = TeamUser.mk 0 p.1)
    (hsn : (s.map Prod.fst).Nodup) (hcn : (c.map Prod.fst).Nodup) :
    (∀ k, k ∈ c.map Prod.fst → s.lookup k = none →
      (teamChanges s c).countP
        (fun ch => decide
          (ch = UserTeamChange.mk ChangeType.Add (TeamUser.mk 0 k))) = 1) ∧
    (∀ k, k ∈ s.map Prod.fst → c.lookup k = none →
      (teamChanges s c).countP
        (fun ch => decide
          (ch = UserTeamChange.mk ChangeType.Remove (TeamUser.mk 0 k))) = 1) ∧
    (∀ k, (s.lookup k).isSome → (c.lookup k).isSome →
      ∀ ch ∈ teamChanges s c, ch.user.Email ≠ k) ∧
    (teamChanges s c).countP
      (fun ch => decide (ch.type = ChangeType.Add)) =
      (c.filter fun p => (s.lookup p.1).isNone).length ∧
    (teamChanges s c).countP
      (fun ch => decide (ch.type = ChangeType.Remove)) =
      (s.filter fun p => (c.lookup p.1).isNone).length := by
  refine ⟨?_, ?_, ?_, ?_, ?_⟩
  · intro k hk hnone
    unfold teamChanges
    rw [List.countP_append,
      count_filterMap_target s ChangeType.Add k c hc0 hcn hk hnone,
      countP_changesOf_ne_target c s ChangeType.Remove ChangeType.Add
        (TeamUser.mk 0 k) (by decide)]
  · intro k hk hnone
    unfold teamChanges
    rw [List.countP_append,
      count_filterMap_target c ChangeType.Remove k s hs0 hsn hk hnone,
      countP_changesOf_ne_target s c ChangeType.Add ChangeType.Remove
        (TeamUser.mk 0 k) (by decide)]
  · intro k hks hkc ch hch hemail
    rcases teamChanges_mem s c ch hch with ⟨_, p, _, hu, hnone⟩ |
      ⟨_, p, _, hu, hnone⟩
    · rw [← hemail, hu, hnone] at hks
      simp at hks
    · rw [← hemail, hu, hnone] at hkc
      simp at hkc
  · unfold teamChanges
    rw [List.countP_append, countP_changesOf_kind s ChangeType.Add c hc0,
      countP_changesOf_ne_kind c s ChangeType.Remove ChangeType.Add
        (by decide)]
    simp
  · unfold teamChanges
    rw [List.countP_append, countP_changesOf_kind c ChangeType.Remove s hs0,
      countP_changesOf_ne_kind s c ChangeType.Add ChangeType.Remove
        (by decide)]
    simp

/-- Witness for C1: previous {a}, desired {a, b} has exactly one Add
change for b. -/
theorem teamChanges_exact_diff_witness :
    (teamChanges [("a", TeamUser.mk 0 "a")]
      [("a", TeamUser.mk 0 "a"), ("b", TeamUser.mk 0 "b")]).countP
      (fun ch => decide
        (ch = UserTeamChange.mk ChangeType.Add (TeamUser.mk 0 "b"))) = 1 :=
  (teamChanges_exact_diff [("a", TeamUser.mk 0 "a")]
    [("a", TeamUser.mk 0 "a"), ("b", TeamUser.mk 0 "b")]
    (by decide) (by decide) (by decide) (by decide)).1 "b"
    (by decide) (by decide)

end GrafanaTeam
